import Mathlib

/-!
Verification of the wumpus-quest agent (`src/example.py`).

Shallow embedding conventions:
* Python floats are modelled as exact rationals (`ℚ`); the probability and
  reward constants `0.8`, `0.1`, `-0.01`, `-0.1`, the discount `GAMMA = 0.95`
  and the threshold `EPSILON = 1e-6` are the corresponding rationals.
* Grid coordinates are integer pairs `(column, row)`, as in the source.
* A Python `dict` keyed by positions is an association list with the source's
  update semantics (`d[k] = v` overwrites in place, otherwise appends); a
  Python `set` of positions is a list of positions.
* `random.choice` (the initial policy) and the dice of `cross_bridge` are
  modelled as explicit parameters, so every stochastic outcome corresponds to
  one instantiation.
* The unbounded `while True:` loops of `policy_iteration` are modelled with
  explicit fuel: a `none` result means the loop has not stopped within the
  given number of rounds.
-/

namespace Wumpus

/-- A board position `(column, row)`, as produced by `parse_map`. -/
abbrev Pos : Type := Int × Int

/-- The action strings of the source, as a closed enumeration
(`ACTIONS = ["NORTH", "SOUTH", "EAST", "WEST", "EXIT"]`). -/
inductive Action : Type where
  | NORTH
  | SOUTH
  | EAST
  | WEST
  | EXIT
deriving DecidableEq, Repr

/-- `ACTIONS` (src/example.py line 10), in the declared order. -/
def ACTIONS : List Action :=
  [Action.NORTH, Action.SOUTH, Action.EAST, Action.WEST, Action.EXIT]

/-- `GAMMA = 0.95` (line 8). -/
def GAMMA : ℚ := 19 / 20

/-- `EPSILON = 1e-6` (line 9). -/
def EPSILON : ℚ := 1 / 1000000

/-- An MDP state: `(position, gold_collected)`.  The `frozenset` of collected
gold is encoded as its canonical list representation (a subsequence of the
`gold_locations` list), which is in bijection with the frozensets that the
source can ever build. -/
abbrev MState : Type := Pos × List Pos

/-- Python `d.get(k, 0)` on a position-keyed dict. -/
def dget (d : List (Pos × ℚ)) (k : Pos) : ℚ :=
  match d with
  | [] => 0
  | (k', v) :: rest => if k' = k then v else dget rest k

/-- Python `d[k] = v`: overwrite the binding in place if the key is present,
otherwise append it (insertion order is preserved, as for Python dicts). -/
def dset (d : List (Pos × ℚ)) (k : Pos) (v : ℚ) : List (Pos × ℚ) :=
  match d with
  | [] => [(k, v)]
  | (k', v') :: rest => if k' = k then (k, v) :: rest else (k', v') :: dset rest k v

/-- The cell character stored at `p`; meaningful only when `p` is a valid
(non-negative, in-range) index pair, which every guarded use in the source
ensures. -/
def cellAt (grid : List (List Char)) (p : Pos) : Char :=
  (grid.getD p.2.toNat []).getD p.1.toNat 'X'

/-- `is_position_walkable` (lines 95-99): inside the bounds (the column is
checked against the width of row 0, as in the source) and not a wall. -/
def is_position_walkable (position : Pos) (grid : List (List Char)) : Bool :=
  decide (0 ≤ position.2 ∧ position.2 < grid.length ∧
          0 ≤ position.1 ∧ position.1 < ((grid.getD 0 []).length : Int) ∧
          cellAt grid position ≠ 'X')

/-- `get_walkable_positions` (lines 38-44): row-major scan, columns ranged by
the width of row 0, keeping cells that are not `'X'`. -/
def get_walkable_positions (grid : List (List Char)) : List Pos :=
  (List.range grid.length).flatMap (fun r =>
    (List.range (grid.getD 0 []).length).filterMap (fun c =>
      if (grid.getD r []).getD c 'X' ≠ 'X' then some ((c : Int), (r : Int)) else none))

/-- The `directions` table (lines 53-58, 131-136).  `EXIT` has no entry in the
source (the lookup is unreachable for it); `(0, 0)` is a junk value. -/
def dirOffset : Action → Int × Int
  | Action.NORTH => (0, -1)
  | Action.SOUTH => (0, 1)
  | Action.EAST => (1, 0)
  | Action.WEST => (-1, 0)
  | Action.EXIT => (0, 0)

/-- `left_turn` (lines 76-83); `dict.get` yields `None` off the table. -/
def left_turn : Action → Option Action
  | Action.NORTH => some Action.WEST
  | Action.SOUTH => some Action.EAST
  | Action.EAST => some Action.NORTH
  | Action.WEST => some Action.SOUTH
  | Action.EXIT => none

/-- `right_turn` (lines 85-92). -/
def right_turn : Action → Option Action
  | Action.NORTH => some Action.EAST
  | Action.SOUTH => some Action.WEST
  | Action.EAST => some Action.SOUTH
  | Action.WEST => some Action.NORTH
  | Action.EXIT => none

/-- Apply a direction offset to a position. -/
def shift (p : Pos) (d : Int × Int) : Pos := (p.1 + d.1, p.2 + d.2)

/-- The primary target cell of a directional action. -/
def primPos (p : Pos) (a : Action) : Pos := shift p (dirOffset a)

/-- The left-drift target cell (meaningful for the four directional actions,
whose `left_turn` is always defined). -/
def leftPos (p : Pos) (a : Action) : Pos := shift p (dirOffset ((left_turn a).getD a))

/-- The right-drift target cell. -/
def rightPos (p : Pos) (a : Action) : Pos := shift p (dirOffset ((right_turn a).getD a))

/-- The value returned by `get_possible_next_positions`: a Python `set` of
positions (the `EXIT` branch, lines 123-128) or a `dict` from positions to
probabilities (the directional branch, lines 130-166). -/
inductive PosDist : Type where
  | pyset : List Pos → PosDist
  | pydict : List (Pos × ℚ) → PosDist
deriving DecidableEq

/-- Iterating over the returned value (`for next_position in ...`): the set's
elements, or the dict's keys in insertion order. -/
def keysOf : PosDist → List Pos
  | PosDist.pyset s => s
  | PosDist.pydict d => d.map Prod.fst

/-- `possible_moves.get(next_position, 0.0)` (line 178).  The source only
applies it to the `dict` branch (the `EXIT` branch returns earlier); the
`pyset` case is unreachable there and yields a junk `0`. -/
def pyget (d : PosDist) (k : Pos) : ℚ :=
  match d with
  | PosDist.pyset _ => 0
  | PosDist.pydict l => dget l k

/-- The dict built by the directional branch of `get_possible_next_positions`
(lines 140-166): `t`, `l`, `r` are the primary, left-drift and right-drift
target cells, `wt`, `wl`, `wr` their walkability; blocked mass is added onto
the current position with `possible_positions.get(position, 0) + _`. -/
def mkDist (position t l r : Pos) (wt wl wr : Bool) : List (Pos × ℚ) :=
  let d0 : List (Pos × ℚ) := []
  let d1 := if wt then dset d0 t (4/5) else dset d0 position (dget d0 position + 4/5)
  let d2 := if wl then dset d1 l (1/10) else dset d1 position (dget d1 position + 1/10)
  if wr then dset d2 r (1/10) else dset d2 position (dget d2 position + 1/10)

/-- `get_possible_next_positions` (lines 122-166).  The `match` on
`left_turn`/`right_turn` models the source's `if left_move:` truthiness guard
(`None` is the only falsy value those lookups can produce). -/
def get_possible_next_positions (position : Pos) (action : Action) (grid : List (List Char)) :
    PosDist :=
  match action with
  | Action.EXIT =>
      if cellAt grid position = 'S' then PosDist.pyset [position] else PosDist.pyset []
  | a =>
      let d0 : List (Pos × ℚ) := []
      let tp := shift position (dirOffset a)
      let d1 :=
        if is_position_walkable tp grid then dset d0 tp (4/5)
        else dset d0 position (dget d0 position + 4/5)
      let d2 :=
        match left_turn a with
        | some la =>
            let lp := shift position (dirOffset la)
            if is_position_walkable lp grid then dset d1 lp (1/10)
            else dset d1 position (dget d1 position + 1/10)
        | none => d1
      let d3 :=
        match right_turn a with
        | some ra =>
            let rp := shift position (dirOffset ra)
            if is_position_walkable rp grid then dset d2 rp (1/10)
            else dset d2 position (dget d2 position + 1/10)
        | none => d2
      PosDist.pydict d3

/-- `get_transition_prob` (lines 170-178). -/
def get_transition_prob (position : Pos) (action : Action) (next_position : Pos)
    (grid : List (List Char)) : ℚ :=
  let possible_moves := get_possible_next_positions position action grid
  if action = Action.EXIT then
    if cellAt grid position = 'S' ∧ next_position = position then 1 else 0
  else
    pyget possible_moves next_position

/-- `get_reward` (lines 103-118).  `start_pos` is the value produced by
`parse_map`, hence an `Option`; `gold_collected` is the canonical list
encoding of the frozenset, so `len` is the list length. -/
def get_reward (position : Pos) (action : Action) (next_position : Pos)
    (gold_collected : List Pos) (gold_locations : List Pos) (start_pos : Option Pos) : ℚ :=
  let reward : ℚ := -(1/100)
  let reward := if next_position = position then reward - 1/10 else reward
  let reward :=
    if next_position ∈ gold_locations ∧ next_position ∉ gold_collected then reward + 1
    else reward
  if action = Action.EXIT ∧ some next_position = start_pos then
    reward + (gold_collected.length : ℚ)
  else reward

/-- `itertools.combinations(s, r)` on a list: all length-`r` sublists, in the
order the Python iterator produces them. -/
def combinations : Nat → List Pos → List (List Pos)
  | 0, _ => [[]]
  | _ + 1, [] => []
  | r + 1, x :: xs => (combinations r xs).map (x :: ·) ++ combinations (r + 1) xs

/-- `powerset` (lines 15-17): subsets by increasing size, each as its
canonical sublist of the input. -/
def powersetList (l : List Pos) : List (List Pos) :=
  (List.range (l.length + 1)).flatMap (fun r => combinations r l)

/-- The `states` list of `policy_iteration` (line 192): positions outer,
gold subsets inner. -/
def statesOf (grid : List (List Char)) (gold_locations : List Pos) : List MState :=
  (get_walkable_positions grid).flatMap (fun p =>
    (powersetList gold_locations).map (fun gc => (p, gc)))

/-- The static map data threaded through `policy_iteration`. -/
structure MapData where
  grid : List (List Char)
  gold_locations : List Pos
  start_pos : Option Pos

/-- `next_gold_collected` (lines 208-210 / 228-230): add the entered gold cell
if it is an uncollected gold location.  The result is kept in canonical form
(a sublist of `gold_locations`), the encoding of `frozenset(...)`. -/
def nextGold (gold_collected : List Pos) (gold_locations : List Pos) (next_position : Pos) :
    List Pos :=
  if next_position ∈ gold_locations ∧ next_position ∉ gold_collected then
    gold_locations.filter (fun g => g ∈ gold_collected ∨ g = next_position)
  else gold_collected

/-- The Bellman expectation `total` of lines 206-212 / 226-232: iterate the
keys of `get_possible_next_positions`, weighting reward-plus-discounted-value
by `get_transition_prob`.  A `none` action (the `best_action = None` corner of
the improvement step, see claim C9) has no meaning in the source — Python
would raise a `KeyError` — and is given the junk total `0`. -/
def bellmanTotal (md : MapData) (V : MState → ℚ) (s : MState) (oa : Option Action) : ℚ :=
  match oa with
  | none => 0
  | some a =>
      ((keysOf (get_possible_next_positions s.1 a md.grid)).map (fun next_position =>
        get_transition_prob s.1 a next_position md.grid *
          (get_reward s.1 a next_position s.2 md.gold_locations md.start_pos +
            GAMMA * V (next_position, nextGold s.2 md.gold_locations next_position)))).sum

/-- One policy-evaluation sweep (lines 201-214): in-place Gauss-Seidel update
of `V` over `states` in order, tracking `delta = max(delta, abs(v - V[state]))`. -/
def evalSweep (states : List MState) (md : MapData) (pol : MState → Option Action)
    (V : MState → ℚ) : (MState → ℚ) × ℚ :=
  states.foldl (fun acc s =>
    let v := acc.1 s
    let t := bellmanTotal md acc.1 s (pol s)
    (Function.update acc.1 s t, max acc.2 |v - t|)) (V, 0)

/-- The inner `while True:` evaluation loop (lines 200-216), with fuel: sweep,
stop as soon as `delta < EPSILON`, else continue; `none` means the loop has
not stopped within `fuel` sweeps (the source has no other exit). -/
def policyEvalLoop (fuel : Nat) (states : List MState) (md : MapData)
    (pol : MState → Option Action) (V : MState → ℚ) : Option (MState → ℚ) :=
  match fuel with
  | 0 => none
  | n + 1 =>
      if (evalSweep states md pol V).2 < EPSILON then some (evalSweep states md pol V).1
      else policyEvalLoop n states md pol (evalSweep states md pol V).1

/-- The value function after `k` full evaluation sweeps. -/
def sweepIter (states : List MState) (md : MapData) (pol : MState → Option Action)
    (V : MState → ℚ) : Nat → (MState → ℚ)
  | 0 => V
  | k + 1 => (evalSweep states md pol (sweepIter states md pol V k)).1

/-- `best_value` starts as `-float('inf')` (line 224); `none` encodes minus
infinity, and `total > best_value` is true against it for every total. -/
def bvLt (bv : Option ℚ) (t : ℚ) : Bool :=
  match bv with
  | none => true
  | some b => decide (b < t)

/-- The argmax fold of the improvement step (lines 223-235): scan `l` keeping
the first strictly improving action and its total. -/
def bestOf (g : Action → ℚ) (l : List Action) (acc : Option Action × Option ℚ) :
    Option Action × Option ℚ :=
  l.foldl (fun acc a =>
    let t := g a
    if bvLt acc.2 t then (some a, some t) else acc) acc

/-- `best_action` for one state in the improvement pass. -/
def improveState (md : MapData) (V : MState → ℚ) (s : MState) : Option Action :=
  (bestOf (fun a => bellmanTotal md V s (some a)) ACTIONS (none, none)).1

/-- The state loop of the policy-improvement pass (lines 220-238), threading
the `(policy, policy_stable)` accumulator: each state's action is re-assigned
to `best_action`, and stability records whether any `old_action` changed. -/
def improvePassAux (md : MapData) (V : MState → ℚ) :
    List MState → (MState → Option Action) × Bool → (MState → Option Action) × Bool
  | [], acc => acc
  | s :: rest, acc =>
      improvePassAux md V rest
        (Function.update acc.1 s (improveState md V s),
         acc.2 && decide (acc.1 s = improveState md V s))

/-- One policy-improvement pass (lines 219-238): `policy_stable` starts
`True` and the pass walks every state. -/
def improvePass (md : MapData) (states : List MState) (V : MState → ℚ)
    (pol : MState → Option Action) : (MState → Option Action) × Bool :=
  improvePassAux md V states (pol, true)

/-- The outer loop of `policy_iteration` (lines 198-243), with fuel for both
loops: evaluate to convergence, improve, stop when the policy is stable, and
return the final policy together with the value function it was computed
from.  `none` means some loop did not stop within its fuel. -/
def policyIterLoop (outerFuel innerFuel : Nat) (md : MapData) (states : List MState)
    (pol : MState → Option Action) (V : MState → ℚ) :
    Option ((MState → Option Action) × (MState → ℚ)) :=
  match outerFuel with
  | 0 => none
  | n + 1 =>
      match policyEvalLoop innerFuel states md pol V with
      | none => none
      | some V' =>
          if (improvePass md states V' pol).2 then some ((improvePass md states V' pol).1, V')
          else policyIterLoop n innerFuel md states (improvePass md states V' pol).1 V'

/-- `raw_map.split('\n')` on the character sequence of the map text. -/
def splitLines : List Char → List (List Char)
  | [] => [[]]
  | c :: rest =>
      if c = '\n' then [] :: splitLines rest
      else
        match splitLines rest with
        | [] => [[c]]
        | l :: ls => (c :: l) :: ls

/-- Python `row.strip()` truthiness: the row contains a character outside the
whitespace set that `str.strip` removes. -/
def rowKept (row : List Char) : Bool :=
  row.any (fun c =>
    ¬ (c = ' ' ∨ c = '\t' ∨ c = '\n' ∨ c = '\r' ∨ c = '\x0b' ∨ c = '\x0c'))

/-- The inner cell loop of `parse_map` (lines 27-33) over one row, threading
`(gold_locations, start_pos, bridge)`.  A later `'S'` overwrites `start_pos`. -/
def scanRow (colIdx rowIdx : Nat) (row : List Char)
    (acc : List Pos × Option Pos × List Pos) : List Pos × Option Pos × List Pos :=
  match row with
  | [] => acc
  | cell :: rest =>
      let p : Pos := ((colIdx : Int), (rowIdx : Int))
      let acc' :=
        if cell = 'G' then (acc.1 ++ [p], acc.2.1, acc.2.2)
        else if cell = 'S' then (acc.1, some p, acc.2.2)
        else if cell = 'B' then (acc.1, acc.2.1, acc.2.2 ++ [p])
        else acc
      scanRow (colIdx + 1) rowIdx rest acc'

/-- The row loop of `parse_map` (line 26). -/
def scanGrid (rowIdx : Nat) (rows : List (List Char))
    (acc : List Pos × Option Pos × List Pos) : List Pos × Option Pos × List Pos :=
  match rows with
  | [] => acc
  | line :: rest => scanGrid (rowIdx + 1) rest (scanRow 0 rowIdx line acc)

/-- `parse_map` (lines 21-34): split the text into lines, keep the non-blank
ones as the grid, and scan it for gold, start and bridge cells.  The function
is total: it performs no validation of any kind. -/
def parse_map (raw_map : List Char) :
    List (List Char) × List Pos × Option Pos × List Pos :=
  let grid := (splitLines raw_map).filter rowKept
  (grid, scanGrid 0 grid ([], none, []))

/-- Every row of the grid has the width of row 0 (the shape every in-bounds
index computation of the source assumes). -/
def RowsRectangular (grid : List (List Char)) : Prop :=
  ∀ row ∈ grid, row.length = (grid.getD 0 []).length

/-- The bridge branch of `agent_function` (lines 312-323), as a function of
the injected dice outcomes: on a `'B'` cell the agent rolls up to
`agility_skill` attempts; the `for ... else` returns the literal `"EXIT"`
exactly when every attempt failed, and otherwise control falls through
(`none`) to the policy-following code. -/
def agent_bridge_decision (grid : List (List Char)) (current_position : Pos)
    (agility_skill : Nat) (rolls : Nat → Bool) : Option Action :=
  if cellAt grid current_position = 'B' then
    if (List.range agility_skill).all (fun i => !(rolls i)) then some Action.EXIT
    else none
  else none

/-- Modelled from the spec: the fallback-action search of section 4.6 —
"searches the fixed action list in order for an alternative action whose
target is not a blocked hazard, selecting the first such action".  This
behaviour is absent from the source; the definition exists only to state
claim C7 against it. -/
def fallback_search (grid : List (List Char)) (p : Pos) : Option Action :=
  ACTIONS.find? (fun a => !(cellAt grid (primPos p a) = 'B'))

/-- A concrete map used to settle claim C4: the Start cell `(1, 1)` is
surrounded by Pit cells to the north, east and south, a wall to the west. -/
def gridC4 : List (List Char) :=
  [['X', 'P', 'X'],
   ['X', 'S', 'P'],
   ['X', 'P', 'X']]

/-- Map data for `gridC4` (no gold). -/
def mdC4 : MapData := ⟨gridC4, [], some (1, 1)⟩

/-- The state enumeration for `gridC4`. -/
def statesC4 : List MState := statesOf gridC4 []

/-- One possible draw of the `random.choice` initial policy for `gridC4`:
`EAST` at the start cell, `EXIT` elsewhere. -/
def polC4 : MState → Option Action :=
  fun s => if s.1 = ((1 : Int), (1 : Int)) then some Action.EAST else some Action.EXIT

/-- The all-zero initial value function (line 196). -/
def Vzero : MState → ℚ := fun _ => 0

/-- The 1-by-1 map holding only the Start cell, used for claim C3. -/
def gridS : List (List Char) := [['S']]

/-- Map data for `gridS`. -/
def mdS : MapData := ⟨gridS, [], some (0, 0)⟩

/-- The state enumeration for `gridS`: just `((0, 0), ∅)`. -/
def statesS : List MState := statesOf gridS []

/-- A possible initial policy for `gridS`: `NORTH` everywhere. -/
def polS : MState → Option Action := fun _ => some Action.NORTH

/-- The single state of `gridS`. -/
def s0 : MState := ((0, 0), [])

/-- The probability a returned `get_possible_next_positions` value assigns to
a candidate next position, in the sense of claim C10: a dict assigns its
stored probability (default `0.0`), and the `EXIT` singleton set stands for
probability `1.0` of remaining in place (spec section 4.3). -/
def distProbOf : PosDist → Pos → ℚ
  | PosDist.pyset s, q => if q ∈ s then 1 else 0
  | PosDist.pydict d, q => dget d q

/-- Claim C2 as stated: `get_reward` decomposes into a negative step penalty,
a negative blocked-move penalty, a positive item bonus, and — on `EXIT` at the
start cell — a per-item bonus plus a strictly positive additional
full-clearance bonus. -/
def claimC2Statement : Prop :=
  ∃ step blocked bonus perItem clear : ℚ,
    step < 0 ∧ blocked < 0 ∧ 0 < bonus ∧ 0 < perItem ∧ 0 < clear ∧
    ∀ (position : Pos) (action : Action) (next_position : Pos)
      (gold_collected gold_locations : List Pos) (start : Pos),
      get_reward position action next_position gold_collected gold_locations (some start) =
        step + (if next_position = position then blocked else 0) +
        (if next_position ∈ gold_locations ∧ next_position ∉ gold_collected then bonus else 0) +
        (if action = Action.EXIT ∧ next_position = start then
          perItem * (gold_collected.length : ℚ) +
            (if ∀ g ∈ gold_locations, g ∈ gold_collected then clear else 0)
         else 0)

/-- Claim C3 as stated: some configured iteration cap bounds the inner
policy-evaluation loop, so that for every input grid (and every value
function the loop may be entered with) the loop stops — converged or capped —
within `cap` sweeps and returns a value estimate. -/
def claimC3Statement : Prop :=
  ∃ cap : Nat,
    ∀ (grid : List (List Char)) (gold_locations : List Pos) (start_pos : Option Pos)
      (pol : MState → Option Action) (V : MState → ℚ),
      (policyEvalLoop cap (statesOf grid gold_locations)
        ⟨grid, gold_locations, start_pos⟩ pol V).isSome = true

/-- Claim C4 as stated: on any map whose Start cell has an adjacent Pit cell,
the policy returned by `policy_iteration` (for any draw of the random initial
policy and any fuel) never assigns to a state an action all of whose
reachable successors are Pit cells while some alternative action from that
state has a non-Pit outcome. -/
def claimC4Statement : Prop :=
  ∀ (grid : List (List Char)) (gold_locations : List Pos) (start : Pos)
    (pol0 : MState → Option Action) (V0 : MState → ℚ) (fo fi : Nat)
    (pi : MState → Option Action) (Vf : MState → ℚ),
    cellAt grid start = 'S' →
    (∃ q, (q = shift start (0, -1) ∨ q = shift start (0, 1) ∨
           q = shift start (1, 0) ∨ q = shift start (-1, 0)) ∧ cellAt grid q = 'P') →
    policyIterLoop fo fi ⟨grid, gold_locations, some start⟩
        (statesOf grid gold_locations) pol0 V0 = some (pi, Vf) →
    ∀ s ∈ statesOf grid gold_locations, ∀ a, pi s = some a →
      keysOf (get_possible_next_positions s.1 a grid) ≠ [] →
      (∀ q ∈ keysOf (get_possible_next_positions s.1 a grid), cellAt grid q = 'P') →
      ¬ ∃ a', ∃ q ∈ keysOf (get_possible_next_positions s.1 a' grid), cellAt grid q ≠ 'P'

/-- Claim C6 as stated: maps with no Start cell or inconsistent row widths
make grid construction fail.  The embedded `parse_map`, like the source, is a
total function with no error channel, so the spec's contract — the failure is
surfaced and no grid is assumed for the episode — is equivalent to: no call
ever hands the caller a grid without a Start position, or a ragged grid. -/
def claimC6Statement : Prop :=
  ∀ raw : List Char,
    (parse_map raw).2.2.1 ≠ none ∧ RowsRectangular (parse_map raw).1

/-- Claim C7 as stated: when the hazard sub-game fails on a bridge cell, the
controller's answer is the first action in the fixed action list whose target
is not a blocked hazard (the spec's fallback search). -/
def claimC7Statement : Prop :=
  ∀ (grid : List (List Char)) (p : Pos) (agility : Nat) (rolls : Nat → Bool),
    cellAt grid p = 'B' → (∀ i < agility, rolls i = false) →
    agent_bridge_decision grid p agility rolls = fallback_search grid p

/-- A map text with no Start cell (for claim C6). -/
def noStartC6 : List Char := ['X', 'X', '\n', 'X', 'X']

/-- A map text with a Start cell but inconsistent row widths (for C6). -/
def raggedC6 : List Char := ['S', 'X', '\n', 'X', 'X', 'X']

/-- A two-cell column whose lower cell is a bridge (for claim C7): the first
action in `ACTIONS`, `NORTH`, targets the non-hazard cell above. -/
def gridC7 : List (List Char) := [['.'], ['B']]

/-- A two-cell row used to witness claim C1. -/
def gridC1 : List (List Char) := [['S', '.']]

/-- Claim C10: for every position, action and candidate next position,
`get_transition_prob` returns exactly the probability that the value of
`get_possible_next_positions` assigns to that candidate — the stored dict
probability with default `0.0`, and, in the `EXIT` special case, `1.0` on the
singleton support and `0.0` elsewhere. -/
theorem C10_transition_prob_agrees (position : Pos) (action : Action) (next_position : Pos)
    (grid : List (List Char)) :
    get_transition_prob position action next_position grid =
      distProbOf (get_possible_next_positions position action grid) next_position := by
  cases action with
  | EXIT =>
      by_cases hS : cellAt grid position = 'S'
      · by_cases hn : next_position = position <;>
          simp [get_transition_prob, get_possible_next_positions, hS, hn, distProbOf]
      · simp [get_transition_prob, get_possible_next_positions, hS, distProbOf]
  | NORTH => rfl
  | SOUTH => rfl
  | EAST => rfl
  | WEST => rfl

/-- Claim C8: for an in-bounds position, `EXIT` yields a non-empty transition
distribution exactly when the cell is the Start cell `'S'`, and in that case
the transition probability of remaining at the same position is `1.0`. -/
theorem C8_exit_validity (grid : List (List Char)) (position : Pos)
    (_h1 : 0 ≤ position.1) (_h2 : 0 ≤ position.2)
    (_h3 : position.2 < (grid.length : Int))
    (_h4 : position.1 < (((grid.getD position.2.toNat []).length : Int))) :
    (keysOf (get_possible_next_positions position Action.EXIT grid) ≠ [] ↔
      cellAt grid position = 'S') ∧
    (cellAt grid position = 'S' →
      get_transition_prob position Action.EXIT position grid = 1) := by
  constructor
  · by_cases hS : cellAt grid position = 'S' <;>
      simp [get_possible_next_positions, keysOf, hS]
  · intro hS
    simp [get_transition_prob, hS]

/-- Witness for C8 at the 1-by-1 Start-only grid. -/
theorem C8_witness :
    ((0 : Int) ≤ (((0 : Int), (0 : Int)) : Pos).1 ∧
     (0 : Int) ≤ (((0 : Int), (0 : Int)) : Pos).2 ∧
     (((0 : Int), (0 : Int)) : Pos).2 < (gridS.length : Int) ∧
     (((0 : Int), (0 : Int)) : Pos).1 <
       ((gridS.getD (((0 : Int), (0 : Int)) : Pos).2.toNat []).length : Int)) ∧
    ((keysOf (get_possible_next_positions ((0 : Int), (0 : Int)) Action.EXIT gridS) ≠ [] ↔
        cellAt gridS ((0 : Int), (0 : Int)) = 'S') ∧
     (cellAt gridS ((0 : Int), (0 : Int)) = 'S' →
        get_transition_prob ((0 : Int), (0 : Int)) Action.EXIT ((0 : Int), (0 : Int)) gridS = 1)) :=
  ⟨⟨by decide, by decide, by decide, by decide⟩,
   C8_exit_validity gridS ((0 : Int), (0 : Int)) (by decide) (by decide) (by decide) (by decide)⟩

/-- Helper: the closed additive form of `get_reward`, shared by the C2
theorems. -/
theorem get_reward_closed_form (position : Pos) (action : Action)
    (next_position : Pos) (gold_collected gold_locations : List Pos)
    (start_pos : Option Pos) :
    get_reward position action next_position gold_collected gold_locations start_pos =
      -(1 / 100) + (if next_position = position then -(1 / 10) else 0) +
      (if next_position ∈ gold_locations ∧ next_position ∉ gold_collected then 1 else 0) +
      (if action = Action.EXIT ∧ some next_position = start_pos then
        (gold_collected.length : ℚ) else 0) := by
  unfold get_reward
  split_ifs <;> ring

/-- Counterexample to claim C2: no additive decomposition of `get_reward`
with a strictly positive extra full-clearance bonus exists, because the code
pays exactly `len(gold_collected)` on `EXIT` at the start cell whether or not
every gold location has been collected.  Compare carrying the single gold of
a fully cleared map with carrying one of two golds: the source rewards both
with `0.89`. -/
theorem C2_counterexample : ¬ claimC2Statement := by
  rintro ⟨step, blocked, bonus, perItem, clear, -, -, -, -, hclear, heq⟩
  have hA := heq (0, 0) Action.EXIT (0, 0) [(5, 5)] [(5, 5)] (0, 0)
  have hB := heq (0, 0) Action.EXIT (0, 0) [(5, 5)] [(5, 5), (6, 6)] (0, 0)
  rw [get_reward_closed_form] at hA hB
  have hmemA : ¬((((0 : Int), (0 : Int)) : Pos) ∈ ([(5, 5)] : List Pos) ∧
      (((0 : Int), (0 : Int)) : Pos) ∉ ([(5, 5)] : List Pos)) := by decide
  have hmemB : ¬((((0 : Int), (0 : Int)) : Pos) ∈ ([(5, 5), (6, 6)] : List Pos) ∧
      (((0 : Int), (0 : Int)) : Pos) ∉ ([(5, 5)] : List Pos)) := by decide
  have hallA : ∀ g ∈ ([(5, 5)] : List Pos), g ∈ ([(5, 5)] : List Pos) := by decide
  have hallB : ¬ ∀ g ∈ ([(5, 5), (6, 6)] : List Pos), g ∈ ([(5, 5)] : List Pos) := by decide
  simp only [hmemA, hallA, hallB, if_true, if_false, eq_self_iff_true, and_self,
    List.length_cons, List.length_nil, Nat.cast_one, if_pos, true_and, ite_true, ite_false,
    Option.some.injEq] at hA hB
  rw [if_pos hallA] at hA
  rw [if_neg hmemB] at hB
  rw [if_neg hmemB] at hB
  push_cast at hA hB
  linarith

/-- Claim C2, amended: `get_reward` is the sum of the fixed step penalty
`-0.01`, a blocked-move penalty `-0.1` when the move did not change the
position, an item bonus `+1` when the next position is an uncollected gold
location, and — on `EXIT` at the start cell — a bonus equal to the number of
golds carried.  There is no additional full-clearance bonus. -/
theorem C2_amended_reward_decomposition (position : Pos) (action : Action)
    (next_position : Pos) (gold_collected gold_locations : List Pos)
    (start_pos : Option Pos) :
    get_reward position action next_position gold_collected gold_locations start_pos =
      -(1 / 100) + (if next_position = position then -(1 / 10) else 0) +
      (if next_position ∈ gold_locations ∧ next_position ∉ gold_collected then 1 else 0) +
      (if action = Action.EXIT ∧ some next_position = start_pos then
        (gold_collected.length : ℚ) else 0) :=
  get_reward_closed_form position action next_position gold_collected gold_locations start_pos

/-- Counterexample to claim C7: on a bridge cell whose northern neighbour is
an ordinary floor cell, the spec's fallback search selects `NORTH` (the first
action in the list with a non-hazard target), but when every crossing attempt
fails the source returns the literal `EXIT`. -/
theorem C7_counterexample : ¬ claimC7Statement := by
  intro h
  have hc := h gridC7 (0, 1) 1 (fun _ => false) (by decide) (fun i _ => rfl)
  exact absurd hc (by decide)

/-- Claim C7, amended: when the agent stands on a bridge cell and every
attempt of the hazard sub-game fails, `agent_function` returns the fixed
action `EXIT`; no search through the action list takes place, and since
`EXIT` belongs to the declared action list the controller still answers with
a declared action (it cannot raise: the branch is a plain return). -/
theorem C7_amended_exit_on_failure (grid : List (List Char)) (p : Pos) (agility : Nat)
    (rolls : Nat → Bool) (hB : cellAt grid p = 'B')
    (hfail : ∀ i < agility, rolls i = false) :
    agent_bridge_decision grid p agility rolls = some Action.EXIT ∧
      Action.EXIT ∈ ACTIONS := by
  refine ⟨?_, by decide⟩
  unfold agent_bridge_decision
  rw [if_pos hB, if_pos ?_]
  rw [List.all_eq_true]
  intro i hi
  rw [hfail i (List.mem_range.mp hi)]
  rfl

/-- Witness for the amended C7 on the concrete bridge map. -/
theorem C7_witness :
    cellAt gridC7 ((0 : Int), (1 : Int)) = 'B' ∧
    (agent_bridge_decision gridC7 ((0 : Int), (1 : Int)) 2 (fun _ => false) =
        some Action.EXIT ∧ Action.EXIT ∈ ACTIONS) :=
  ⟨by decide, C7_amended_exit_on_failure gridC7 ((0 : Int), (1 : Int)) 2 (fun _ => false)
    (by decide) (fun i _ => rfl)⟩

/-- For a directional action the primary and two drift targets are pairwise
distinct and distinct from the current position. -/
theorem dir_targets_distinct (position : Pos) (a : Action) (ha : a ≠ Action.EXIT) :
    primPos position a ≠ position ∧ leftPos position a ≠ position ∧
    rightPos position a ≠ position ∧ primPos position a ≠ leftPos position a ∧
    primPos position a ≠ rightPos position a ∧ leftPos position a ≠ rightPos position a := by
  obtain ⟨x, y⟩ := position
  cases a <;> first
  | exact absurd rfl ha
  | · simp only [primPos, leftPos, rightPos, shift, dirOffset, left_turn, right_turn,
        Option.getD_some, ne_eq, Prod.mk.injEq, not_and]
      omega

/-- The characterization of the dict built by the directional branch: given
the pairwise-distinct keys, each walkable target carries its nominal mass,
the current position accumulates exactly the blocked mass, and everything
sums to `1`. -/
theorem mkDist_spec (position t l r : Pos) (htp : t ≠ position) (hlp : l ≠ position)
    (hrp : r ≠ position) (htl : t ≠ l) (htr : t ≠ r) (hlr : l ≠ r) (wt wl wr : Bool) :
    ((mkDist position t l r wt wl wr).map Prod.snd).sum = 1 ∧
    (wt = true → dget (mkDist position t l r wt wl wr) t = 4 / 5) ∧
    (wl = true → dget (mkDist position t l r wt wl wr) l = 1 / 10) ∧
    (wr = true → dget (mkDist position t l r wt wl wr) r = 1 / 10) ∧
    dget (mkDist position t l r wt wl wr) position =
      (if wt then 0 else 4 / 5) + (if wl then 0 else 1 / 10) +
      (if wr then 0 else 1 / 10) := by
  cases wt <;> cases wl <;> cases wr <;>
    simp [mkDist, dset, dget, htp, hlp, hrp, htl, htr, hlr,
      Ne.symm htp, Ne.symm hlp, Ne.symm hrp, Ne.symm htl, Ne.symm htr, Ne.symm hlr] <;>
    norm_num

/-- The directional branch of `get_possible_next_positions` is `mkDist` at
the action's primary, left-drift and right-drift targets. -/
theorem gpnp_eq_mkDist (position : Pos) (a : Action) (grid : List (List Char))
    (ha : a ≠ Action.EXIT) :
    get_possible_next_positions position a grid =
      PosDist.pydict (mkDist position (primPos position a) (leftPos position a)
        (rightPos position a)
        (is_position_walkable (primPos position a) grid)
        (is_position_walkable (leftPos position a) grid)
        (is_position_walkable (rightPos position a) grid)) := by
  cases a <;> first
  | exact absurd rfl ha
  | rfl

/-- Claim C1: for every walkable position and directional action, the
returned distribution is a dict that assigns `0.8` to the primary target if
walkable, `0.1` to each walkable perpendicular drift target, accumulates
exactly the blocked mass on the current position, and sums to `1` exactly
(hence to `1.0` within `1e-9`); and the invalid action (`EXIT` away from the
stairs) yields the empty distribution. -/
theorem C1_directional_distribution (grid : List (List Char)) (position : Pos)
    (a : Action) (ha : a ≠ Action.EXIT)
    (_hw : is_position_walkable position grid = true) :
    (∃ d, get_possible_next_positions position a grid = PosDist.pydict d ∧
      ((d.map Prod.snd).sum = 1 ∧
       (is_position_walkable (primPos position a) grid = true →
          dget d (primPos position a) = 4 / 5) ∧
       (is_position_walkable (leftPos position a) grid = true →
          dget d (leftPos position a) = 1 / 10) ∧
       (is_position_walkable (rightPos position a) grid = true →
          dget d (rightPos position a) = 1 / 10) ∧
       dget d position =
         (if is_position_walkable (primPos position a) grid then 0 else 4 / 5) +
         (if is_position_walkable (leftPos position a) grid then 0 else 1 / 10) +
         (if is_position_walkable (rightPos position a) grid then 0 else 1 / 10))) ∧
    (cellAt grid position ≠ 'S' →
      get_possible_next_positions position Action.EXIT grid = PosDist.pyset []) := by
  obtain ⟨h1, h2, h3, h4, h5, h6⟩ := dir_targets_distinct position a ha
  refine ⟨⟨_, gpnp_eq_mkDist position a grid ha, ?_⟩, ?_⟩
  · exact mkDist_spec position _ _ _ h1 h2 h3 h4 h5 h6 _ _ _
  · intro hS
    simp [get_possible_next_positions, hS]

/-- Witness for C1 on the two-cell grid `S.` at the start cell, action
`EAST`. -/
theorem C1_witness :
    ∃ d, get_possible_next_positions ((0 : Int), (0 : Int)) Action.EAST gridC1 =
        PosDist.pydict d ∧ (d.map Prod.snd).sum = 1 := by
  obtain ⟨⟨d, hd, hsum, -, -, -, -⟩, -⟩ :=
    C1_directional_distribution gridC1 ((0 : Int), (0 : Int)) Action.EAST
      (by decide) (by decide)
  exact ⟨d, hd, hsum⟩

/-- The row scan leaves `start_pos` as `None` exactly when it was `None`
before and the row contains no `'S'`. -/
theorem scanRow_start_none (rowIdx : Nat) (row : List Char) :
    ∀ (colIdx : Nat) (acc : List Pos × Option Pos × List Pos),
      (scanRow colIdx rowIdx row acc).2.1 = none ↔ acc.2.1 = none ∧ 'S' ∉ row := by
  induction row with
  | nil => intro colIdx acc; simp [scanRow]
  | cons ch rest ih =>
      intro colIdx acc
      rw [scanRow]
      by_cases hG : ch = 'G'
      · subst hG
        rw [if_pos rfl, ih]
        simp [show ('S' : Char) ≠ 'G' from by decide]
      · by_cases hS : ch = 'S'
        · subst hS
          rw [if_neg hG, if_pos rfl, ih]
          simp
        · by_cases hB : ch = 'B'
          · subst hB
            rw [if_neg hG, if_neg hS, if_pos rfl, ih]
            simp [show ('S' : Char) ≠ 'B' from by decide]
          · rw [if_neg hG, if_neg hS, if_neg hB, ih]
            simp [Ne.symm hS]

/-- The grid scan leaves `start_pos` as `None` exactly when it was `None`
before and no kept row contains `'S'`. -/
theorem scanGrid_start_none (rows : List (List Char)) :
    ∀ (rowIdx : Nat) (acc : List Pos × Option Pos × List Pos),
      (scanGrid rowIdx rows acc).2.1 = none ↔
        acc.2.1 = none ∧ ∀ l ∈ rows, 'S' ∉ l := by
  induction rows with
  | nil => intro rowIdx acc; simp [scanGrid]
  | cons line rest ih =>
      intro rowIdx acc
      rw [scanGrid, ih, scanRow_start_none]
      simp only [List.mem_cons]
      constructor
      · rintro ⟨⟨hn, hline⟩, hrest⟩
        exact ⟨hn, fun l hl => hl.elim (fun h => h ▸ hline) (hrest l)⟩
      · rintro ⟨hn, hall⟩
        exact ⟨⟨hn, hall line (Or.inl rfl)⟩, fun l hl => hall l (Or.inr hl)⟩

/-- Counterexample to claim C6: `parse_map` has no failure path.  On the
Start-less map `"XX\nXX"` it happily returns a grid with `start_pos = None`
(and on `"SX\nXXX"` it returns a ragged grid), so the demand that malformed
maps fail with a `MalformedMapError` surfaced to the caller is violated. -/
theorem C6_counterexample : ¬ claimC6Statement := by
  intro h
  exact absurd (show (parse_map noStartC6).2.2.1 = none from by decide)
    (h noStartC6).1

/-- Claim C6, amended: `parse_map` performs no validation and never fails.
A missing Start cell is observable only as `start_pos = None` — in general,
the returned `start_pos` is `None` exactly when no kept row contains `'S'` —
and rows of inconsistent width are returned as they are (the concrete ragged
map parses to a non-rectangular grid with its Start found). -/
theorem C6_amended_no_validation :
    (∀ raw : List Char,
      (parse_map raw).2.2.1 = none ↔ ∀ l ∈ (parse_map raw).1, 'S' ∉ l) ∧
    (parse_map raggedC6).1 = [['S', 'X'], ['X', 'X', 'X']] ∧
    ¬ RowsRectangular (parse_map raggedC6).1 ∧
    (parse_map raggedC6).2.2.1 = some (0, 0) := by
  refine ⟨?_, by decide, ?_, by decide⟩
  · intro raw
    show (scanGrid 0 ((splitLines raw).filter rowKept) ([], none, [])).2.1 = none ↔ _
    rw [scanGrid_start_none]
    simp [parse_map]
  · intro h
    have h2 := h ['X', 'X', 'X'] (by decide)
    revert h2
    decide

/-- After the improvement pass, every visited state holds its freshly
computed `best_action`; unvisited states keep their old action. -/
theorem improvePassAux_fst_apply (md : MapData) (V : MState → ℚ) (states : List MState) :
    ∀ (acc : (MState → Option Action) × Bool) (s : MState),
      (improvePassAux md V states acc).1 s =
        if s ∈ states then improveState md V s else acc.1 s := by
  induction states with
  | nil => intro acc s; simp [improvePassAux]
  | cons x rest ih =>
      intro acc s
      rw [improvePassAux, ih]
      by_cases hr : s ∈ rest
      · simp [hr]
      · by_cases hx : s = x
        · subst hx
          simp [hr, Function.update_same]
        · simp [hr, hx, Function.update_noteq hx]

/-- `improvePass` in applied form. -/
theorem improvePass_fst_apply (md : MapData) (states : List MState) (V : MState → ℚ)
    (pol : MState → Option Action) (s : MState) :
    (improvePass md states V pol).1 s =
      if s ∈ states then improveState md V s else pol s :=
  improvePassAux_fst_apply md V states (pol, true) s

/-- Whatever policy `policyIterLoop` returns was produced by an improvement
pass over the returned value function. -/
theorem policyIterLoop_returns_improved :
    ∀ (fo fi : Nat) (md : MapData) (states : List MState) (pol : MState → Option Action)
      (V : MState → ℚ) (pi : MState → Option Action) (Vf : MState → ℚ),
      policyIterLoop fo fi md states pol V = some (pi, Vf) →
      ∃ prev, pi = (improvePass md states Vf prev).1 := by
  intro fo
  induction fo with
  | zero =>
      intro fi md states pol V pi Vf h
      exact absurd h (by simp [policyIterLoop])
  | succ n ih =>
      intro fi md states pol V pi Vf h
      rw [policyIterLoop] at h
      split at h
      · exact absurd h (by simp)
      · rename_i V' _
        split at h
        · have h2 := Option.some.inj h
          have hpi : (improvePass md states V' pol).1 = pi := congrArg Prod.fst h2
          have hVf : V' = Vf := congrArg Prod.snd h2
          exact ⟨pol, by rw [← hpi, hVf]⟩
        · exact ih fi md states _ V' pi Vf h

/-- Claim C5: when the outer loop of `policy_iteration` terminates (the last
improvement pass left every state's action unchanged), one further
improvement pass over the returned value function and policy reproduces the
policy exactly — the returned policy is a fixed point of improvement. -/
theorem C5_improvement_fixed_point (fo fi : Nat) (md : MapData) (states : List MState)
    (pol : MState → Option Action) (V : MState → ℚ) (pi : MState → Option Action)
    (Vf : MState → ℚ) (h : policyIterLoop fo fi md states pol V = some (pi, Vf)) :
    (improvePass md states Vf pi).1 = pi := by
  obtain ⟨prev, hpi⟩ := policyIterLoop_returns_improved fo fi md states pol V pi Vf h
  funext s
  rw [improvePass_fst_apply]
  by_cases hs : s ∈ states
  · rw [if_pos hs, hpi, improvePass_fst_apply, if_pos hs]
  · rw [if_neg hs]

/-- The argmax fold yields a member of the scanned list (or keeps the
already-selected action). -/
theorem bestOf_fst_some_mem (g : Action → ℚ) :
    ∀ (l : List Action) (acc : Option Action × Option ℚ) (a0 : Action),
      acc.1 = some a0 → ∃ a, (bestOf g l acc).1 = some a ∧ (a = a0 ∨ a ∈ l) := by
  intro l
  induction l with
  | nil => intro acc a0 h; exact ⟨a0, h, Or.inl rfl⟩
  | cons x rest ih =>
      intro acc a0 h
      have hstep : bestOf g (x :: rest) acc =
          bestOf g rest (if bvLt acc.2 (g x) then (some x, some (g x)) else acc) := rfl
      rw [hstep]
      by_cases hlt : bvLt acc.2 (g x) = true
      · rw [if_pos hlt]
        obtain ⟨a, ha, hmem⟩ := ih (some x, some (g x)) x rfl
        exact ⟨a, ha, Or.inr (hmem.elim (fun he => he ▸ List.mem_cons_self x rest)
          (fun hm => List.mem_cons_of_mem x hm))⟩
      · rw [if_neg hlt]
        obtain ⟨a, ha, hmem⟩ := ih acc a0 h
        exact ⟨a, ha, hmem.elim Or.inl (fun hm => Or.inr (List.mem_cons_of_mem x hm))⟩

/-- `best_action` is never left as `None`: the first scanned action already
beats `-float('inf')`, so the fold always selects some member of `ACTIONS`. -/
theorem improveState_some_mem (md : MapData) (V : MState → ℚ) (s : MState) :
    ∃ a, improveState md V s = some a ∧ a ∈ ACTIONS := by
  have h1 : improveState md V s =
      (bestOf (fun a => bellmanTotal md V s (some a))
        [Action.SOUTH, Action.EAST, Action.WEST, Action.EXIT]
        (some Action.NORTH,
         some (bellmanTotal md V s (some Action.NORTH)))).1 := rfl
  rw [h1]
  obtain ⟨a, ha, hmem⟩ := bestOf_fst_some_mem (fun a => bellmanTotal md V s (some a))
    [Action.SOUTH, Action.EAST, Action.WEST, Action.EXIT]
    (some Action.NORTH, some (bellmanTotal md V s (some Action.NORTH))) Action.NORTH rfl
  refine ⟨a, ha, ?_⟩
  rcases hmem with rfl | hm
  · exact List.mem_cons_self _ _
  · exact List.mem_cons_of_mem _ hm

/-- Claim C9: whenever `policy_iteration` returns, the returned policy maps
every enumerated state to `some` action belonging to the declared `ACTIONS`
list — `best_action` is never `None`, because every total (a finite
rational) beats the initial minus-infinity bound. -/
theorem C9_policy_total (fo fi : Nat) (md : MapData) (states : List MState)
    (pol : MState → Option Action) (V : MState → ℚ) (pi : MState → Option Action)
    (Vf : MState → ℚ) (h : policyIterLoop fo fi md states pol V = some (pi, Vf))
    (s : MState) (hs : s ∈ states) :
    ∃ a, pi s = some a ∧ a ∈ ACTIONS := by
  obtain ⟨prev, hpi⟩ := policyIterLoop_returns_improved fo fi md states pol V pi Vf h
  rw [hpi, improvePass_fst_apply, if_pos hs]
  exact improveState_some_mem md Vf s

/-- Shifting the sweep iterator by one sweep. -/
theorem sweepIter_shift (states : List MState) (md : MapData)
    (pol : MState → Option Action) (V : MState → ℚ) :
    ∀ k, sweepIter states md pol ((evalSweep states md pol V).1) k =
      sweepIter states md pol V (k + 1) := by
  intro k
  induction k with
  | zero => rfl
  | succ k ih => rw [sweepIter, ih]; rfl

/-- Claim C3, amended: the policy-evaluation loop's only exit is
`delta < EPSILON` — run with any amount of fuel, it has not stopped exactly
when every sweep performed so far ended with `delta` at or above `EPSILON`.
The source has no iteration cap. -/
theorem C3_amended_eval_loop_exit (states : List MState) (md : MapData)
    (pol : MState → Option Action) :
    ∀ (fuel : Nat) (V : MState → ℚ),
      policyEvalLoop fuel states md pol V = none ↔
        ∀ k < fuel, EPSILON ≤ (evalSweep states md pol (sweepIter states md pol V k)).2 := by
  intro fuel
  induction fuel with
  | zero => intro V; simp [policyEvalLoop]
  | succ n ih =>
      intro V
      rw [policyEvalLoop]
      by_cases hlt : (evalSweep states md pol V).2 < EPSILON
      · rw [if_pos hlt]
        constructor
        · intro h; exact absurd h (by simp)
        · intro hall
          exact absurd (hall 0 (Nat.succ_pos n)) (not_le.mpr hlt)
      · rw [if_neg hlt, ih]
        constructor
        · intro hall k hk
          cases k with
          | zero => exact le_of_not_lt hlt
          | succ k =>
              rw [← sweepIter_shift]
              exact hall k (Nat.lt_of_succ_lt_succ hk)
        · intro hall k hk
          rw [sweepIter_shift]
          exact hall (k + 1) (Nat.succ_lt_succ hk)

/-- `(20/19)^n` is at least one. -/
theorem one_le_pow_twenty_nineteenths (n : Nat) : (1 : ℚ) ≤ (20 / 19) ^ n := by
  induction n with
  | zero => norm_num
  | succ k ih => rw [pow_succ]; nlinarith

section ConcreteRuns

/- The arithmetic of `Rat` is `@[irreducible]` by default; concrete runs of
the embedded loops are evaluated definitionally, so its kernel reducibility
is restored locally. -/
unseal Rat.add Rat.mul Rat.sub Rat.inv

set_option maxRecDepth 100000

/-- On the one-state grid `gridS` under policy `NORTH`, the Bellman total is
the affine map `-0.11 + 0.95 * V`. -/
theorem bellmanTotal_gridS (W : MState → ℚ) :
    bellmanTotal mdS W s0 (some Action.NORTH) = -(11 / 100) + (19 / 20) * W s0 := by
  have hk : get_possible_next_positions s0.1 Action.NORTH mdS.grid =
      PosDist.pydict [(((0 : Int), (0 : Int)), 1)] := by decide
  have hp : get_transition_prob s0.1 Action.NORTH ((0 : Int), (0 : Int)) mdS.grid = 1 := by
    decide
  have hr : get_reward s0.1 Action.NORTH ((0 : Int), (0 : Int)) s0.2 mdS.gold_locations
      mdS.start_pos = -(11 / 100) := by decide
  have hg : nextGold s0.2 mdS.gold_locations ((0 : Int), (0 : Int)) = [] := by decide
  simp only [bellmanTotal, hk, keysOf, List.map_cons, List.map_nil, List.sum_cons,
    List.sum_nil, hp, hr, hg]
  have hgamma : GAMMA = 19 / 20 := rfl
  have hs : ((((0 : Int), (0 : Int)), ([] : List Pos)) : MState) = s0 := rfl
  rw [hgamma, hs]
  ring

/-- One evaluation sweep on `gridS`: value update and delta in closed form. -/
theorem evalSweep_gridS (V : MState → ℚ) :
    evalSweep statesS mdS polS V =
      (Function.update V s0 (-(11 / 100) + (19 / 20) * V s0),
       |V s0 - (-(11 / 100) + (19 / 20) * V s0)|) := by
  have h1 : statesS = [s0] := rfl
  rw [evalSweep, h1]
  simp only [List.foldl_cons, List.foldl_nil, polS]
  rw [bellmanTotal_gridS]
  rw [max_eq_right (abs_nonneg _)]

/-- Entered far enough from the fixed point, the evaluation loop on `gridS`
performs any demanded number of sweeps without `delta` ever dropping below
`EPSILON`. -/
theorem evalLoopS_none : ∀ (n : Nat) (V : MState → ℚ),
    (20 / 19 : ℚ) ^ n ≤ V s0 + 11 / 5 →
    policyEvalLoop n statesS mdS polS V = none := by
  intro n
  induction n with
  | zero => intro V _; rfl
  | succ k ih =>
      intro V hV
      have hpow : (1 : ℚ) ≤ (20 / 19) ^ (k + 1) := one_le_pow_twenty_nineteenths (k + 1)
      have habs : |V s0 - (-(11 / 100) + (19 / 20) * V s0)| = (V s0 + 11 / 5) / 20 := by
        rw [show V s0 - (-(11 / 100) + (19 / 20) * V s0) = (V s0 + 11 / 5) / 20 by ring]
        exact abs_of_nonneg (by linarith)
      have h2 : (evalSweep statesS mdS polS V).2 = (V s0 + 11 / 5) / 20 := by
        rw [evalSweep_gridS]; exact habs
      have h1v : (evalSweep statesS mdS polS V).1 =
          Function.update V s0 (-(11 / 100) + (19 / 20) * V s0) := by
        rw [evalSweep_gridS]
      have hEps : ¬ (evalSweep statesS mdS polS V).2 < EPSILON := by
        rw [h2, show EPSILON = 1 / 1000000 from rfl, not_lt]
        linarith
      rw [policyEvalLoop, if_neg hEps, h1v]
      apply ih
      rw [Function.update_same]
      have hps : (20 / 19 : ℚ) ^ (k + 1) = (20 / 19) ^ k * (20 / 19) := pow_succ _ _
      linarith [hV, hps]

/-- Counterexample to claim C3: no iteration cap exists.  For every proposed
cap, entering the evaluation loop on the one-cell Start map with the value
function constantly `(20/19)^cap` keeps `delta` at or above `EPSILON` for at
least `cap` consecutive sweeps, so the loop is still running — the source's
inner loop exits only on `delta < EPSILON`. -/
theorem C3_counterexample : ¬ claimC3Statement := by
  rintro ⟨cap, h⟩
  have h2 := h gridS [] (some (0, 0)) polS (fun _ => (20 / 19 : ℚ) ^ cap)
  have h3 : policyEvalLoop cap (statesOf gridS []) ⟨gridS, [], some (0, 0)⟩ polS
      (fun _ => (20 / 19 : ℚ) ^ cap) = none := by
    have hst : statesOf gridS [] = statesS := rfl
    have hmd : (⟨gridS, [], some (0, 0)⟩ : MapData) = mdS := rfl
    rw [hst, hmd]
    apply evalLoopS_none cap
    show (20 / 19 : ℚ) ^ cap ≤ (20 / 19 : ℚ) ^ cap + 11 / 5
    linarith
  rw [h3] at h2
  exact absurd h2 (by simp)

/-- Counterexample to claim C4: the source performs no Pit filtering at all
(`parse_map` does not even record `'P'` cells, and any non-wall cell is
walkable).  On `gridC4` — Start surrounded by Pits north, east and south —
with the initial policy `polC4`, `policy_iteration` stabilizes immediately
and assigns `EAST` to the start state: every reachable successor of `EAST`
is a Pit cell, although `WEST` (among others) offers a non-Pit outcome. -/
theorem C4_counterexample : ¬ claimC4Statement := by
  intro h
  cases hl : policyIterLoop 2 3 mdC4 statesC4 polC4 Vzero with
  | none =>
      have hsome : (policyIterLoop 2 3 mdC4 statesC4 polC4 Vzero).isSome = true := by decide
      rw [hl] at hsome
      exact absurd hsome (by simp)
  | some pr =>
      obtain ⟨pi, Vf⟩ := pr
      have hmap : Option.map (fun pr => pr.1 (((1 : Int), (1 : Int)), ([] : List Pos)))
          (policyIterLoop 2 3 mdC4 statesC4 polC4 Vzero) = some (some Action.EAST) := by
        decide
      rw [hl] at hmap
      simp only [Option.map_some'] at hmap
      have hmap2 := Option.some.inj hmap
      have happ := h gridC4 [] (1, 1) polC4 Vzero 2 3 pi Vf (by decide)
        ⟨((1 : Int), (0 : Int)), Or.inl (by decide), by decide⟩ hl
        (((1 : Int), (1 : Int)), []) (by decide) Action.EAST hmap2 (by decide) (by decide)
      exact happ ⟨Action.WEST, ((1 : Int), (1 : Int)), by decide, by decide⟩

/-- Claim C4, amended: `policy_iteration` applies no Pit filtering, and there
is a map with Pit cells adjacent to Start, together with a possible draw of
the random initial policy, for which the returned policy assigns to the
start state an action all of whose reachable successors are Pit cells even
though an alternative action with a non-Pit outcome exists. -/
theorem C4_amended_pit_action_chosen :
    Option.map (fun pr => pr.1 (((1 : Int), (1 : Int)), ([] : List Pos)))
        (policyIterLoop 2 3 mdC4 statesC4 polC4 Vzero) = some (some Action.EAST) ∧
    cellAt gridC4 ((1 : Int), (1 : Int)) = 'S' ∧
    cellAt gridC4 (shift ((1 : Int), (1 : Int)) (0, -1)) = 'P' ∧
    keysOf (get_possible_next_positions ((1 : Int), (1 : Int)) Action.EAST gridC4) ≠ [] ∧
    (∀ q ∈ keysOf (get_possible_next_positions ((1 : Int), (1 : Int)) Action.EAST gridC4),
      cellAt gridC4 q = 'P') ∧
    (∃ q ∈ keysOf (get_possible_next_positions ((1 : Int), (1 : Int)) Action.WEST gridC4),
      cellAt gridC4 q ≠ 'P') := by
  refine ⟨by decide, by decide, by decide, by decide, by decide, ?_⟩
  exact ⟨((1 : Int), (1 : Int)), by decide, by decide⟩

/-- Witness for C5: on `gridC4` with initial policy `polC4` the loop returns
after one stable round, and re-running improvement reproduces the returned
policy. -/
theorem C5_witness :
    ∃ pi Vf, policyIterLoop 2 3 mdC4 statesC4 polC4 Vzero = some (pi, Vf) ∧
      (improvePass mdC4 statesC4 Vf pi).1 = pi := by
  cases hl : policyIterLoop 2 3 mdC4 statesC4 polC4 Vzero with
  | none =>
      have hsome : (policyIterLoop 2 3 mdC4 statesC4 polC4 Vzero).isSome = true := by decide
      rw [hl] at hsome
      exact absurd hsome (by simp)
  | some pr =>
      obtain ⟨pi, Vf⟩ := pr
      exact ⟨pi, Vf, rfl,
        C5_improvement_fixed_point 2 3 mdC4 statesC4 polC4 Vzero pi Vf hl⟩

/-- Witness for C9: the policy returned on `gridC4` assigns a declared
action to the start state. -/
theorem C9_witness :
    ∃ pi Vf, policyIterLoop 2 3 mdC4 statesC4 polC4 Vzero = some (pi, Vf) ∧
      ∃ a, pi (((1 : Int), (1 : Int)), []) = some a ∧ a ∈ ACTIONS := by
  cases hl : policyIterLoop 2 3 mdC4 statesC4 polC4 Vzero with
  | none =>
      have hsome : (policyIterLoop 2 3 mdC4 statesC4 polC4 Vzero).isSome = true := by decide
      rw [hl] at hsome
      exact absurd hsome (by simp)
  | some pr =>
      obtain ⟨pi, Vf⟩ := pr
      exact ⟨pi, Vf, rfl,
        C9_policy_total 2 3 mdC4 statesC4 polC4 Vzero pi Vf hl
          (((1 : Int), (1 : Int)), []) (by decide)⟩

end ConcreteRuns

end Wumpus
